import Mathlib

/-!
Verification of the moia image-transfer pipeline.

Shallow embedding of the registry-discovery and image-transfer scripts:

* `src/00_explore_microfocusidol.py` — paginated package/tag discovery
  (`get_all_packages`, `list_tags`);
* `src/docker-nifi/nifi/02_retag_nifi_images.py` — glob-based candidate
  selection (`should_process_image`) and retagging (`retag_images`);
* `src/docker-nifi/nifi/03_push_nifi_images.py` — remote-digest idempotency
  check (`check_remote_image_exists`) and push scanning (`push_images`);
* `src/03_push_images_to_docdirect.py` — streamed push with authentication
  retry (`push_image`), job orchestration (`process_images`, `main`) and
  per-job transcript logging.

Python strings are embedded as `List Char` (`Str`), dictionaries from the
docker stream as records of `Option` fields, and every network or runtime
side effect as an explicit event in a trace.  All definitions are executable
so that concrete runs can be settled by `decide`/`rfl`.
-/

/-- Python `str` values are modelled as lists of characters. -/
abbrev Str := List Char

/-- Python `s.lower()` (the identifiers handled by the scripts are ASCII;
`Char.toLower` folds exactly the ASCII range). -/
def pyLower (s : Str) : Str := s.map Char.toLower

/-- Python `s.split(sep)` for a one-character separator: splits on every
occurrence, `"".split(sep) == [""]`, adjacent separators yield empty fields. -/
def pySplit (sep : Char) : Str → List Str
  | [] => [[]]
  | c :: cs =>
    if c = sep then [] :: pySplit sep cs
    else
      match pySplit sep cs with
      | [] => [[c]]
      | p :: ps => (c :: p) :: ps

/-- Python string comparison `a <= b`: lexicographic on code points. -/
def pyLe : Str → Str → Bool
  | [], _ => true
  | _ :: _, [] => false
  | a :: as_, b :: bs => if a = b then pyLe as_ bs else decide (a < b)

/-- Insert into a `pyLe`-sorted list (ties keep the incoming element first,
which is indistinguishable for equal strings). -/
def pyInsert (x : Str) : List Str → List Str
  | [] => [x]
  | y :: ys => if pyLe x y then x :: y :: ys else y :: pyInsert x ys

/-- Python `sorted(l)` for a list of strings. -/
def pySorted (l : List Str) : List Str := l.foldr pyInsert []

/-- Python `needle in hay` for strings: substring containment. -/
def pyIn (needle hay : Str) : Bool :=
  (List.range (hay.length + 1)).any fun i => needle.isPrefixOf (hay.drop i)

/-! ## `fnmatch` — shell-style wildcard matching

Embedding of CPython's `fnmatch.fnmatchcase`: `*` matches any run of
characters, `?` any single character, `[seq]` a character set (with `!`
negation, ranges `a-b`, a first `]` taken literally), and an unterminated
`[` is a literal `[`. -/

/-- Scan a bracket expression for its closing `]`; returns the set contents
and the remainder of the pattern. `none` when the bracket is unterminated. -/
def findClose : Str → Option (Str × Str)
  | [] => none
  | c :: rest =>
    if c = ']' then some ([], rest)
    else (findClose rest).map fun p => (c :: p.1, p.2)

theorem findClose_length (l : Str) : ∀ content rest : Str,
    findClose l = some (content, rest) → rest.length < l.length := by
  induction l with
  | nil => intro _ _ h; simp [findClose] at h
  | cons c cs ih =>
    intro content rest h
    rw [findClose] at h
    split at h
    · simp only [Option.some.injEq, Prod.mk.injEq] at h
      obtain ⟨-, rfl⟩ := h
      simp only [List.length_cons]
      omega
    · rw [Option.map_eq_some'] at h
      obtain ⟨⟨ct, rs⟩, hfc, heq⟩ := h
      simp only [Prod.mk.injEq] at heq
      obtain ⟨-, h2⟩ := heq
      have := ih ct rs hfc
      subst h2
      simp only [List.length_cons]
      omega

/-- Strip an optional leading `!` of a bracket expression; returns whether the
set is negated together with the remaining pattern. -/
def stripNeg (ps : Str) : Bool × Str :=
  match ps with
  | '!' :: t => (true, t)
  | _ => (false, ps)

theorem stripNeg_length (ps : Str) : (stripNeg ps).2.length ≤ ps.length := by
  unfold stripNeg
  split
  · simp only [List.length_cons]; omega
  · exact Nat.le_refl _

/-- Scan a bracket body for its set contents: a first `]` is a literal
member, then everything up to the closing `]`. -/
def scanSet (ps1 : Str) : Option (Str × Str) :=
  match ps1 with
  | ']' :: t => (findClose t).map fun p => (']' :: p.1, p.2)
  | _ => findClose ps1

theorem scanSet_length (ps1 : Str) : ∀ content rest : Str,
    scanSet ps1 = some (content, rest) → rest.length < ps1.length + 1 := by
  intro content rest h
  unfold scanSet at h
  split at h
  · rw [Option.map_eq_some'] at h
    obtain ⟨⟨ct, rs⟩, hfc, heq⟩ := h
    simp only [Prod.mk.injEq] at heq
    obtain ⟨-, rfl⟩ := heq
    have := findClose_length _ _ _ hfc
    simp only [List.length_cons]
    omega
  · have := findClose_length _ _ _ h
    omega

/-- Parse the body of a `[...]` class (the part after `[`): optional leading
`!`, a first `]` taken as a literal member, then scan to the closing `]`.
Returns (negated, set contents, rest of pattern). -/
def parseBracket (ps : Str) : Option (Bool × Str × Str) :=
  (scanSet (stripNeg ps).2).map fun p => ((stripNeg ps).1, p.1, p.2)

theorem parseBracket_length {ps : Str} {neg : Bool} {content rest : Str}
    (h : parseBracket ps = some (neg, content, rest)) :
    rest.length < ps.length + 1 := by
  unfold parseBracket at h
  rw [Option.map_eq_some'] at h
  obtain ⟨⟨ct, rs⟩, hsc, heq⟩ := h
  simp only [Prod.mk.injEq] at heq
  obtain ⟨-, -, rfl⟩ := heq
  have h1 := scanSet_length _ _ _ hsc
  have h2 := stripNeg_length ps
  omega

/-- Membership of a character in a bracket set, honouring `a-b` ranges. -/
def inSet : Str → Char → Bool
  | a :: '-' :: b :: rest, c =>
    (decide (a ≤ c) && decide (c ≤ b)) || inSet rest c
  | a :: rest, c => (a = c) || inSet rest c
  | [], _ => false

/-- One compiled element of a glob pattern. -/
inductive GlobTok where
  | star : GlobTok
  | quest : GlobTok
  | lit : Char → GlobTok
  | set : Bool → Str → GlobTok
  deriving DecidableEq, Repr

/-- Compile a glob pattern into tokens (the translation step of
`fnmatch.translate`).  The recursion is driven by a fuel counter so that it
stays structural (and hence kernel-computable); every step consumes at
least one pattern character, so a fuel of `pattern.length` always suffices
— `globCompileF_stable` proves the result is independent of any
sufficiently large fuel. -/
def globCompileF : Nat → Str → List GlobTok
  | _, [] => []
  | 0, _ :: _ => []
  | fuel + 1, '*' :: ps => .star :: globCompileF fuel ps
  | fuel + 1, '?' :: ps => .quest :: globCompileF fuel ps
  | fuel + 1, '[' :: ps =>
    match parseBracket ps with
    | some (neg, content, rest) => .set neg content :: globCompileF fuel rest
    | none => .lit '[' :: globCompileF fuel ps
  | fuel + 1, c :: ps => .lit c :: globCompileF fuel ps

def globCompile (pattern : Str) : List GlobTok :=
  globCompileF pattern.length pattern

/-- Any fuel of at least the pattern's length yields the same token list:
the fuel used by `globCompile` is sufficient. -/
theorem globCompileF_stable : ∀ (n : Nat) (ps : Str), ps.length ≤ n →
    ∀ f1 f2 : Nat, ps.length ≤ f1 → ps.length ≤ f2 →
      globCompileF f1 ps = globCompileF f2 ps := by
  intro n
  induction n with
  | zero =>
    intro ps hps f1 f2 _ _
    have : ps = [] := List.length_eq_zero.mp (Nat.le_zero.mp hps)
    subst this
    cases f1 <;> cases f2 <;> rfl
  | succ n ih =>
    intro ps hps f1 f2 h1 h2
    rcases ps with _ | ⟨c, ps'⟩
    · cases f1 <;> cases f2 <;> rfl
    · simp only [List.length_cons] at hps h1 h2
      rcases f1 with _ | g1
      · omega
      rcases f2 with _ | g2
      · omega
      have hps' : ps'.length ≤ n := by omega
      have hg1 : ps'.length ≤ g1 := by omega
      have hg2 : ps'.length ≤ g2 := by omega
      by_cases hstar : c = '*'
      · subst hstar
        simp only [globCompileF]
        rw [ih ps' hps' g1 g2 hg1 hg2]
      · by_cases hquest : c = '?'
        · subst hquest
          simp only [globCompileF]
          rw [ih ps' hps' g1 g2 hg1 hg2]
        · by_cases hbr : c = '['
          · subst hbr
            simp only [globCompileF]
            rcases hp : parseBracket ps' with _ | ⟨neg, content, rest⟩
            · dsimp only
              rw [ih ps' hps' g1 g2 hg1 hg2]
            · have hrest := parseBracket_length hp
              have hrn : rest.length ≤ n := by omega
              have hrg1 : rest.length ≤ g1 := by omega
              have hrg2 : rest.length ≤ g2 := by omega
              dsimp only
              rw [ih rest hrn g1 g2 hrg1 hrg2]
          · rw [globCompileF, globCompileF]
            · rw [ih ps' hps' g1 g2 hg1 hg2]
            all_goals simp [hstar, hquest, hbr]

/-- Try the continuation on every suffix of the string — the backtracking
search a `*` performs. -/
def anySuffix (p : Str → Bool) : Str → Bool
  | [] => p []
  | c :: cs => p (c :: cs) || anySuffix p cs

/-- Match a compiled glob against a string: `*` matches an arbitrary run of
characters (the rest of the pattern may resume at any suffix), `?` exactly
one character, a literal itself, a set any member (negated set any
non-member). -/
def globMatch : List GlobTok → Str → Bool
  | [], s => s.isEmpty
  | .star :: ts, s => anySuffix (globMatch ts) s
  | .quest :: ts, s =>
    match s with
    | [] => false
    | _ :: cs => globMatch ts cs
  | .lit a :: ts, s =>
    match s with
    | [] => false
    | c :: cs => (a = c) && globMatch ts cs
  | .set neg content :: ts, s =>
    match s with
    | [] => false
    | c :: cs => (inSet content c != neg) && globMatch ts cs

/-- CPython `fnmatch.fnmatchcase(name, pattern)`. -/
def fnmatchcase (name pattern : Str) : Bool := globMatch (globCompile pattern) name

/-! ## `02_retag_nifi_images.py` — candidate selection and reference parsing -/

/-- The configuration dictionary built by `get_config` (the fields the
selection logic reads). -/
structure NifiConfig where
  target_repo : Str
  image_names : List Str
  image_tags : List Str

/-- Models `should_process_image(image_name, image_tag, config)` of
`src/docker-nifi/nifi/02_retag_nifi_images.py` (identical copy in
`03_push_nifi_images.py`): the name must match some configured name pattern
and the tag some configured tag pattern, both sides lower-cased, via
`fnmatch.fnmatch`. -/
def should_process_image (image_name image_tag : Str) (config : NifiConfig) : Bool :=
  let name_matches :=
    config.image_names.any fun pattern =>
      fnmatchcase (pyLower image_name) (pyLower pattern)
  if !name_matches then false
  else
    config.image_tags.any fun pattern =>
      fnmatchcase (pyLower image_tag) (pyLower pattern)

/-- The reference-parsing prelude shared by `retag_images` and
`push_images`:
`image_parts = tag.split(':')`, `full_name = image_parts[0]`,
`image_name = full_name.split('/')[-1]`,
`tag_name = image_parts[1] if len(image_parts) > 1 else 'latest'`.
Returns `(image_name, tag_name)`. -/
def parseRef (ref : Str) : Str × Str :=
  let image_parts := pySplit ':' ref
  let full_name := image_parts.headD []
  let image_name := (pySplit '/' full_name).getLastD []
  let tag_name := if h : 1 < image_parts.length then image_parts[1] else "latest".toList
  (image_name, tag_name)

/-- Models `new_image = f"{target_repo}/{image_name}:{tag_name}"` in
`retag_images`. -/
def newImage (target_repo ref : Str) : Str :=
  target_repo ++ '/' :: (parseRef ref).1 ++ ':' :: (parseRef ref).2

theorem pySplit_ne_nil (sep : Char) (l : Str) : pySplit sep l ≠ [] := by
  induction l with
  | nil => simp [pySplit]
  | cons c cs ih =>
    rw [pySplit]
    split
    · simp
    · cases h : pySplit sep cs with
      | nil => simp
      | cons p ps => simp

theorem pySplit_of_not_mem {sep : Char} {l : Str} (h : sep ∉ l) :
    pySplit sep l = [l] := by
  induction l with
  | nil => rfl
  | cons c cs ih =>
    simp only [List.mem_cons, not_or] at h
    rw [pySplit, if_neg (by exact fun hc => h.1 hc.symm), ih h.2]

/-! ## Side-effect events

Every network / container-runtime call of the transfer scripts is recorded
as an event so that frame claims ("no push call", "no tag call") can be
stated as trace membership. -/

/-- A network or runtime call issued by the scripts. -/
inductive Event where
  /-- Models `client.images.get_registry_data(tag)` — remote digest lookup. -/
  | remoteCheck (tag : Str)
  /-- Models `client.images.push(tag, ...)`. -/
  | push (tag : Str)
  /-- Models `image.tag(new_image)`. -/
  | tagOp (newTag : Str)
  /-- Models `client.images.remove(tag)`. -/
  | remove (tag : Str)
  /-- Models `client.login(...)` / `docker_login(registry, token)`. -/
  | login (registry : Str)
  deriving DecidableEq, Repr

/-! ## `03_push_nifi_images.py` — idempotent push scan -/

/-- The remote registry's answer to `get_registry_data(tag)`. -/
inductive RemoteAnswer where
  | found (digest : Str)
  | notFound
  | apiError
  deriving DecidableEq, Repr

/-- The docker daemon / remote registry as seen by the nifi push script. -/
structure NifiWorld where
  /-- Models `client.images.list()` — the tag lists of the local images. -/
  images : List (List Str)
  /-- Models `client.images.get(tag).id` — `none` models `docker.errors.ImageNotFound`. -/
  localDigest : Str → Option Str
  /-- Models `client.images.get_registry_data(tag)`. -/
  remote : Str → RemoteAnswer

/-- Models `check_remote_image_exists(client, image_tag, config)` of
`src/docker-nifi/nifi/03_push_nifi_images.py`: true only when the remote
digest resolves and equals the local image's digest; `NotFound` and
`APIError` both yield `False` (the latter with a warning). -/
def check_remote_image_exists (w : NifiWorld) (image_tag : Str) : Bool :=
  match w.remote image_tag with
  | .found remote_digest =>
    match w.localDigest image_tag with
    | some local_digest => remote_digest = local_digest
    | none => false
  | .notFound => false
  | .apiError => false

/-- The scan-loop guard of `push_images`: the tag is non-empty (`if not
tag: continue`), starts with the target repo (`tag.startswith(target_repo)`)
and passes `should_process_image` on the parsed bare name and tag. -/
def isNifiCandidate (cfg : NifiConfig) (tag : Str) : Bool :=
  !tag.isEmpty && cfg.target_repo.isPrefixOf tag
    && should_process_image (parseRef tag).1 (parseRef tag).2 cfg

/-- One iteration of the scan loop of `push_images`: a candidate triggers a
remote-digest lookup and is either skipped (digest identical) or queued for
pushing.  Returns (events, skipped, images_to_push). -/
def pushScanTag (w : NifiWorld) (cfg : NifiConfig) (tag : Str) :
    List Event × List Str × List Str :=
  if isNifiCandidate cfg tag then
    if check_remote_image_exists w tag then ([.remoteCheck tag], [tag], [])
    else ([.remoteCheck tag], [], [tag])
  else ([], [], [])

/-- Models `push_images(target_repo, config, execute)` of
`src/docker-nifi/nifi/03_push_nifi_images.py`: flatten the local images'
tags, scan each tag (the scan itself issues the remote-digest lookups),
then — only in execute mode — push every queued tag.  Returns
(event trace, skipped tags, images_to_push). -/
def push_images (w : NifiWorld) (cfg : NifiConfig) (execute : Bool) :
    List Event × List Str × List Str :=
  let allTags := w.images.flatMap id
  let scans := allTags.map (pushScanTag w cfg)
  let scanEvents := scans.flatMap (·.1)
  let skipped := scans.flatMap (·.2.1)
  let images_to_push := scans.flatMap (·.2.2)
  if !execute then (scanEvents, skipped, images_to_push)
  else (scanEvents ++ images_to_push.map Event.push, skipped, images_to_push)

theorem pushScan_events_remoteCheck (w : NifiWorld) (cfg : NifiConfig)
    (l : List Str) :
    ∀ e ∈ (l.map (pushScanTag w cfg)).flatMap (·.1), ∃ t, e = .remoteCheck t := by
  intro e he
  simp only [List.flatMap_map, List.mem_flatMap] at he
  obtain ⟨t, -, he⟩ := he
  unfold pushScanTag at he
  split at he <;> [skip; simp at he]
  split at he <;> simp at he <;> exact ⟨t, he⟩

theorem pushScan_toPush (w : NifiWorld) (cfg : NifiConfig) (l : List Str) :
    (l.map (pushScanTag w cfg)).flatMap (·.2.2)
      = l.filter fun t => isNifiCandidate cfg t && !check_remote_image_exists w t := by
  induction l with
  | nil => rfl
  | cons t ts ih =>
    simp only [List.map_cons, List.flatMap_cons, List.filter_cons, ih]
    unfold pushScanTag
    by_cases hc : isNifiCandidate cfg t
    · by_cases hr : check_remote_image_exists w t <;> simp [hc, hr]
    · simp [hc]

theorem pushScan_skipped (w : NifiWorld) (cfg : NifiConfig) (l : List Str) :
    (l.map (pushScanTag w cfg)).flatMap (·.2.1)
      = l.filter fun t => isNifiCandidate cfg t && check_remote_image_exists w t := by
  induction l with
  | nil => rfl
  | cons t ts ih =>
    simp only [List.map_cons, List.flatMap_cons, List.filter_cons, ih]
    unfold pushScanTag
    by_cases hc : isNifiCandidate cfg t
    · by_cases hr : check_remote_image_exists w t <;> simp [hc, hr]
    · simp [hc]

/-! ## `02_retag_nifi_images.py` — retag loop -/

/-- The guard sequence of the retag loop: non-empty tag, passes
`should_process_image`, and not already in the target repository
(`if target_repo in tag: continue` — substring test). -/
def isRetagCandidate (cfg : NifiConfig) (tag : Str) : Bool :=
  !tag.isEmpty
    && should_process_image (parseRef tag).1 (parseRef tag).2 cfg
    && !pyIn cfg.target_repo tag

/-- Models `retag_images(target_repo, config, execute, remove_old)` of
`src/docker-nifi/nifi/02_retag_nifi_images.py`: for every candidate tag,
compute `new_image = f"{target_repo}/{image_name}:{tag_name}"`; in execute
mode tag it and, when `remove_old`, remove the original tag.  Returns
(candidate tags, event trace). -/
def retag_images (images : List (List Str)) (cfg : NifiConfig)
    (execute remove_old : Bool) : List Str × List Event :=
  let allTags := images.flatMap id
  let candidates := allTags.filter (isRetagCandidate cfg)
  let events :=
    if execute then
      candidates.flatMap fun t =>
        Event.tagOp (newImage cfg.target_repo t)
          :: (if remove_old then [Event.remove t] else [])
    else []
  (candidates, events)

/-! ## `03_push_images_to_docdirect.py` — streamed push with auth retry -/

/-- One decoded JSON message of the docker push stream (the keys the code
reads: `error`, `status`, `id`). -/
structure PushChunk where
  error : Option Str
  status : Option Str
  id : Option Str
  deriving DecidableEq, Repr

/-- The loop state of `push_image`'s stream consumption. -/
structure StreamAcc where
  total_layers : Nat
  pushed_layers : Nat
  error_details : List Str
  needs_auth : Bool
  deriving DecidableEq, Repr

def initAcc : StreamAcc := ⟨0, 0, [], false⟩

/-- One iteration of `for chunk in response` in `push_image`
(`src/03_push_images_to_docdirect.py`): an `error` chunk is buffered (and
flags `needs_auth` when its lower-cased text contains
`'authentication required'` or `'not authenticated'`) and skipped;
a `status` chunk with an `id` counts `Pushing` toward `total_layers` and
`Layer already exists` / `Pushed` toward `pushed_layers`. -/
def processChunk (acc : StreamAcc) (chunk : PushChunk) : StreamAcc :=
  match chunk.error with
  | some err =>
    let lowered := pyLower err
    { acc with
      error_details := acc.error_details ++ [err]
      needs_auth := acc.needs_auth
        || pyIn "authentication required".toList lowered
        || pyIn "not authenticated".toList lowered }
  | none =>
    match chunk.status with
    | some status =>
      match chunk.id with
      | some _ =>
        if status = "Pushing".toList then
          { acc with total_layers := acc.total_layers + 1 }
        else if status = "Layer already exists".toList then
          { acc with pushed_layers := acc.pushed_layers + 1 }
        else if status = "Pushed".toList then
          { acc with pushed_layers := acc.pushed_layers + 1 }
        else acc
      | none => acc
    | none => acc

/-- Consume a whole push stream. -/
def foldStream (stream : List PushChunk) : StreamAcc :=
  stream.foldl processChunk initAcc

/-- A chunk that reports a layer as transferred or already present. -/
def isLayerDone (c : PushChunk) : Bool :=
  c.error = none && c.id.isSome
    && (c.status = some "Pushed".toList || c.status = some "Layer already exists".toList)

/-- A chunk whose error text marks an authentication failure. -/
def isAuthErrChunk (c : PushChunk) : Bool :=
  match c.error with
  | some e =>
    pyIn "authentication required".toList (pyLower e)
      || pyIn "not authenticated".toList (pyLower e)
  | none => false

theorem foldl_pushed_layers (stream : List PushChunk) (acc : StreamAcc) :
    (stream.foldl processChunk acc).pushed_layers
      = acc.pushed_layers + stream.countP isLayerDone := by
  induction stream generalizing acc with
  | nil => simp
  | cons c cs ih =>
    rw [List.foldl_cons, ih, List.countP_cons]
    unfold processChunk isLayerDone
    rcases hc : c.error with _ | e
    · rcases hs : c.status with _ | s
      · simp [hc, hs]
      · rcases hid : c.id with _ | i
        · simp [hc, hs, hid]
        · by_cases h1 : s = "Pushing".toList
          · simp [hc, hs, hid, h1]
          · by_cases h2 : s = "Layer already exists".toList
            · simp [hc, hs, hid, h1, h2]
              omega
            · by_cases h3 : s = "Pushed".toList
              · simp [hc, hs, hid, h1, h2, h3]
                omega
              · simp_all
    · simp [hc]

theorem foldl_error_details (stream : List PushChunk) (acc : StreamAcc) :
    (stream.foldl processChunk acc).error_details
      = acc.error_details ++ stream.filterMap (·.error) := by
  induction stream generalizing acc with
  | nil => simp
  | cons c cs ih =>
    rw [List.foldl_cons, ih, List.filterMap_cons]
    unfold processChunk
    rcases hc : c.error with _ | e
    · rcases hs : c.status with _ | s
      · simp [hc, hs]
      · rcases hid : c.id with _ | i
        · simp [hc, hs, hid]
        · by_cases h1 : s = "Pushing".toList
          · simp [hc, hs, hid, h1]
          · by_cases h2 : s = "Layer already exists".toList
            · simp [hc, hs, hid, h1, h2]
            · by_cases h3 : s = "Pushed".toList
              · simp [hc, hs, hid, h1, h2, h3]
              · simp_all
    · simp [hc]

theorem foldl_needs_auth (stream : List PushChunk) (acc : StreamAcc) :
    (stream.foldl processChunk acc).needs_auth
      = (acc.needs_auth || stream.any isAuthErrChunk) := by
  induction stream generalizing acc with
  | nil => simp
  | cons c cs ih =>
    rw [List.foldl_cons, ih, List.any_cons]
    unfold processChunk isAuthErrChunk
    rcases hc : c.error with _ | e
    · rcases hs : c.status with _ | s
      · simp [hc, hs]
      · rcases hid : c.id with _ | i
        · simp [hc, hs, hid]
        · by_cases h1 : s = "Pushing".toList
          · simp [hc, hs, hid, h1]
          · by_cases h2 : s = "Layer already exists".toList
            · simp [hc, hs, hid, h1, h2]
            · by_cases h3 : s = "Pushed".toList
              · simp [hc, hs, hid, h1, h2, h3]
              · simp_all
    · simp [hc, Bool.or_assoc]

/-- Python truthiness of the `token` argument (`if needs_auth and token:`
— an empty string counts as absent). -/
def tokenTruthy : Option Str → Bool
  | some t => !t.isEmpty
  | none => false

/-- Terminal outcome of one `push_image` job. -/
inductive PushResult where
  /-- dry-run: `"DRY RUN - Push simulated"`. -/
  | simulated
  /-- Models the result text `"Image not found locally: {tag}"`. -/
  | notFoundLocally
  /-- Models the result text `"Pushed successfully ({n} layers)"`. -/
  | succeeded (pushed_layers : Nat)
  /-- Models the result text `"Push failed: …"` / the no-layers diagnostic. -/
  | failed (reason : Str)
  deriving DecidableEq, Repr

/-- Python `'; '.join(l)`. -/
def joinSemi : List Str → Str
  | [] => []
  | [x] => x
  | x :: xs => x ++ "; ".toList ++ joinSemi xs

/-- The diagnostic used when a push ends with no buffered error and no
pushed or already-existing layer. -/
def noLayersMsg : Str :=
  "Push failed - no layers were pushed (check authentication and permissions)".toList

/-- Models `registry = tag.split('/')[0]` — the registry host the re-login targets. -/
def registryOf (tag : Str) : Str := (pySplit '/' tag).headD []

/-- One push attempt as scripted by the outside world: the decoded stream
the docker daemon answers with, and whether a `docker_login` issued right
after this attempt would succeed. -/
structure PushAttempt where
  stream : List PushChunk
  loginOk : Bool
  deriving Repr

/-- The post-stream decision chain of `push_image`
(`src/03_push_images_to_docdirect.py`): if the stream flagged an
authentication error and a token is present, log in against
`tag.split('/')[0]` and — on success — retry the whole push by a recursive
self-call on the next scripted attempt; on login failure record
`"Push failed: Authentication failed"`.  Otherwise: buffered errors →
`Push failed: '; '.join(...)`; at least one pushed/existing layer →
succeeded; else the no-layers diagnostic.  `none` means the recursion would
consume more attempts than the script provides. -/
def pushAttempts (tag : Str) (token : Option Str) :
    List PushAttempt → Option (PushResult × List Event)
  | [] => none
  | a :: rest =>
    let acc := foldStream a.stream
    if acc.needs_auth && tokenTruthy token then
      if a.loginOk then
        match pushAttempts tag token rest with
        | none => none
        | some (r, evs) =>
          some (r, Event.push tag :: Event.login (registryOf tag) :: evs)
      else
        some (.failed "Push failed: Authentication failed".toList,
              [Event.push tag, Event.login (registryOf tag)])
    else if !acc.error_details.isEmpty then
      some (.failed ("Push failed: ".toList ++ joinSemi acc.error_details),
            [Event.push tag])
    else if acc.pushed_layers > 0 then
      some (.succeeded acc.pushed_layers, [Event.push tag])
    else
      some (.failed noLayersMsg, [Event.push tag])

/-- Models `push_image(client, tag, log_file, dry_run, token)` of
`src/03_push_images_to_docdirect.py`: the dry-run branch returns a simulated
result without touching the client; a locally missing image is recorded
without pushing; otherwise the streamed push runs with the recursive
authentication retry.  Local inspection calls are not traced — the event
trace records the network calls (push, login). -/
def push_image (tag : Str) (token : Option Str) (localExists dry_run : Bool)
    (attempts : List PushAttempt) : Option (PushResult × List Event) :=
  if dry_run then some (.simulated, [])
  else if !localExists then some (.notFoundLocally, [])
  else pushAttempts tag token attempts

/-- Models `get_image_tags(repository, packages, versions)`:
`f"{repository}/{package}:{version}"` for every package × version. -/
def get_image_tags (repository : Str) (packages versions : List Str) : List Str :=
  packages.flatMap fun package =>
    versions.map fun version => repository ++ '/' :: package ++ ':' :: version

/-- The docker daemon as seen by `process_images`: the local image tag
lists, and for every tag whether it exists locally plus the scripted push
attempts. -/
structure DocdirectWorld where
  images : List (List Str)
  localExists : Str → Bool
  attempts : Str → List PushAttempt

/-- Models `process_images(client, repository, packages, versions, ...)` of
`src/03_push_images_to_docdirect.py`: a local tag is processed when some
target tag is a substring of it (`any(target_tag in tag ...)`); each
matching tag is pushed via `push_image`.  Job outcomes are only logged —
they are not returned to `main` and cannot influence the exit code. -/
def process_images (w : DocdirectWorld) (repository : Str)
    (packages versions : List Str) (dry_run : Bool) (token : Option Str) :
    List (Option (PushResult × List Event)) :=
  let target_tags := get_image_tags repository packages versions
  let matching := (w.images.flatMap id).filter fun tag =>
    target_tags.any fun target_tag => pyIn target_tag tag
  matching.map fun tag =>
    push_image tag token (w.localExists tag) dry_run (w.attempts tag)

/-- The exit behaviour of `main` (`src/03_push_images_to_docdirect.py`,
lines 277–356): `sys.exit(1)` fires only when `KeyboardInterrupt` or
another exception escapes the `try` block (modelled as `Except.error`); a
run in which `process_images` returns normally ends the process with exit
code 0 — per-job failures recorded by `push_image` never raise. -/
def main_exit_code (run : Except Str (List (Option (PushResult × List Event)))) : Nat :=
  match run with
  | .error _ => 1
  | .ok _ => 0

/-- Whether a job outcome is a recorded failure. -/
def isFailedOutcome : Option (PushResult × List Event) → Bool
  | some (.failed _, _) => true
  | _ => false

/-! ## The per-job transcript (`push_image` logging, `process_images` file
handling)

`process_images` opens the log with `open(log_file_path, 'w')`; each
terminal job does `log_file.write(f"{log_entry}\n")` (lines 194–196) —
there is no `flush()` call anywhere in the script; the file is flushed when
the `with` block closes it.  The file is modelled with CPython's userspace
write buffer made explicit: `write` appends to the buffer, only
`flush`/`close` move the buffer to disk. -/

structure LogFile where
  disk : Str
  buffer : Str
  deriving DecidableEq, Repr

/-- Models `open(log_file_path, 'w')`. -/
def logOpen : LogFile := ⟨[], []⟩

/-- Models `log_file.write(s)` — buffered append. -/
def logWrite (f : LogFile) (s : Str) : LogFile := { f with buffer := f.buffer ++ s }

/-- Models `log_file.flush()` (never called by the script). -/
def logFlush (f : LogFile) : LogFile := ⟨f.disk ++ f.buffer, []⟩

/-- Closing the file at the end of the `with` block flushes the buffer. -/
def logClose (f : LogFile) : LogFile := logFlush f

/-- The one write a terminal job performs:
`log_file.write(f"{log_entry}\n")` — and nothing else (no flush). -/
def writeJobLine (f : LogFile) (log_entry : Str) : LogFile :=
  logWrite f (log_entry ++ ['\n'])

/-- The transcript state after the given jobs have reached terminal
status, starting from the freshly opened file. -/
def runTranscript (entries : List Str) : LogFile :=
  entries.foldl writeJobLine logOpen

/-! ## `00_explore_microfocusidol.py` — paginated discovery

`get_all_packages` / `list_tags`: login via `POST /v2/users/login/`, fetch
the first page, then `while data.get('next')` fetch successive pages with
the JWT header; a non-200 page breaks the loop (with a printed message in
`get_all_packages`, silently in `list_tags`); the accumulated names are
returned through `sorted(...)`. -/

/-- One HTTP page response: status code, the `results` item names, and
whether a `next` URL is present. -/
structure PageResp where
  status : Nat
  results : List Str
  hasNext : Bool
  deriving DecidableEq, Repr

/-- The `POST /v2/users/login/` response: status code and optional token. -/
structure LoginResp where
  status : Nat
  token : Option Str

/-- An error surfaced (printed) by the pagination code. -/
inductive PageError where
  | loginFailed (status : Nat)
  | noToken
  | firstPageError (status : Nat)
  | nextPageError (status : Nat)
  deriving DecidableEq, Repr

/-- The `while data.get('next')` loop: given the current page's `next`
flag and the chain of scripted responses, accumulate `results`; a non-200
response breaks immediately.  Returns (items, number of page requests
issued by the loop, error status if the loop broke on one). -/
def followNext : Bool → List PageResp → List Str × Nat × Option Nat
  | false, _ => ([], 0, none)
  | true, [] => ([], 0, none)
  | true, p :: rest =>
    if p.status = 200 then
      let (items, n, err) := followNext p.hasNext rest
      (p.results ++ items, n + 1, err)
    else ([], 1, some p.status)

/-- Models `get_all_packages()` of `src/00_explore_microfocusidol.py`.  Returns
the package list and the error messages printed along the way.  Login
failure, missing token and a non-200 first page return `[]` with a printed
message; a failing later page prints `"Failed to get next page: …"`,
breaks, and the names gathered so far are still returned; the final result
is `sorted(packages)`. -/
def get_all_packages (login : LoginResp) (first : PageResp)
    (chain : List PageResp) : List Str × List PageError :=
  if login.status ≠ 200 then ([], [.loginFailed login.status])
  else
    match login.token with
    | none => ([], [.noToken])
    | some _ =>
      if first.status ≠ 200 then ([], [.firstPageError first.status])
      else
        let (items, _, err) := followNext first.hasNext chain
        (pySorted (first.results ++ items),
         match err with
         | some s => [.nextPageError s]
         | none => [])

/-- Number of page `GET` requests `get_all_packages` issues (the login
`POST` is a separate authentication step). -/
def get_all_packages_requests (login : LoginResp) (first : PageResp)
    (chain : List PageResp) : Nat :=
  if login.status ≠ 200 then 0
  else
    match login.token with
    | none => 0
    | some _ =>
      if first.status ≠ 200 then 1
      else 1 + (followNext first.hasNext chain).2.1

/-- Models `list_tags(package)` of `src/00_explore_microfocusidol.py`: the same
pagination walk, but every failure path is silent — the early returns print
nothing and the mid-pagination break has no `print`; no error indication of
any kind reaches the caller (the error component is always empty). -/
def list_tags (login : LoginResp) (first : PageResp)
    (chain : List PageResp) : List Str × List PageError :=
  if login.status ≠ 200 then ([], [])
  else
    match login.token with
    | none => ([], [])
    | some _ =>
      if first.status ≠ 200 then ([], [])
      else
        let (items, _, _) := followNext first.hasNext chain
        (pySorted (first.results ++ items), [])

/-- A well-formed response chain: every page answers 200 and carries a
`next` pointer exactly when more pages follow; `b` is the previous page's
`next` flag. -/
def linked : Bool → List PageResp → Prop
  | b, [] => b = false
  | b, p :: rest => b = true ∧ p.status = 200 ∧ linked p.hasNext rest

instance : ∀ b chain, Decidable (linked b chain)
  | b, [] => by unfold linked; infer_instance
  | b, p :: rest =>
    have : Decidable (linked p.hasNext rest) := instDecidableLinked p.hasNext rest
    by unfold linked; infer_instance

theorem followNext_linked (chain : List PageResp) : ∀ b : Bool, linked b chain →
    followNext b chain = ((chain.map (·.results)).flatten, chain.length, none) := by
  induction chain with
  | nil =>
    intro b hb
    cases hb
    rfl
  | cons p rest ih =>
    intro b hb
    obtain ⟨rfl, h200, hrest⟩ := hb
    rw [followNext, if_pos h200, ih p.hasNext hrest]
    simp

/-- A prefix of pages that all succeed and all point at a next page. -/
def okPages : List PageResp → Prop
  | [] => True
  | p :: rest => p.status = 200 ∧ p.hasNext = true ∧ okPages rest

instance : ∀ chain, Decidable (okPages chain)
  | [] => by unfold okPages; infer_instance
  | p :: rest =>
    have : Decidable (okPages rest) := instDecidableOkPages rest
    by unfold okPages; infer_instance

theorem followNext_failure (good : List PageResp) (bad : PageResp)
    (rest : List PageResp) (hgood : okPages good) (hbad : bad.status ≠ 200) :
    followNext true (good ++ bad :: rest)
      = ((good.map (·.results)).flatten, good.length + 1, some bad.status) := by
  induction good with
  | nil =>
    rw [List.nil_append, followNext, if_neg hbad]
    simp
  | cons p ps ih =>
    obtain ⟨h200, hnext, hps⟩ := hgood
    rw [List.cons_append, followNext, if_pos h200, hnext, ih hps]
    simp only [List.map_cons, List.flatten_cons, List.length_cons, Prod.mk.injEq]

/-! ## Helper lemmas for the claim theorems -/

theorem should_process_image_eq (n t : Str) (cfg : NifiConfig) :
    should_process_image n t cfg
      = ((cfg.image_names.any fun p => fnmatchcase (pyLower n) (pyLower p))
          && (cfg.image_tags.any fun q => fnmatchcase (pyLower t) (pyLower q))) := by
  unfold should_process_image
  cases h : cfg.image_names.any fun p => fnmatchcase (pyLower n) (pyLower p) <;> simp [h]

theorem push_images_events (w : NifiWorld) (cfg : NifiConfig) (execute : Bool) :
    (push_images w cfg execute).1
      = ((w.images.flatMap id).map (pushScanTag w cfg)).flatMap (·.1)
        ++ (if execute then
              ((((w.images.flatMap id).map (pushScanTag w cfg)).flatMap (·.2.2)).map Event.push)
            else []) := by
  unfold push_images
  cases execute <;> simp

theorem push_images_skipped (w : NifiWorld) (cfg : NifiConfig) (execute : Bool) :
    (push_images w cfg execute).2.1
      = ((w.images.flatMap id).map (pushScanTag w cfg)).flatMap (·.2.1) := by
  unfold push_images
  cases execute <;> simp

/-- The `needs_auth` flag can only be set by an error chunk; a stream with no
buffered error never requests re-login. -/
theorem needs_auth_false_of_no_errors (s : List PushChunk)
    (h : (foldStream s).error_details = []) : (foldStream s).needs_auth = false := by
  unfold foldStream at *
  rw [foldl_error_details] at h
  rw [foldl_needs_auth]
  simp only [initAcc] at h ⊢
  simp only [List.nil_append] at h
  simp only [Bool.false_or]
  rw [List.any_eq_false]
  intro c hc
  have hce : c.error = none := by
    rw [List.filterMap_eq_nil_iff] at h
    exact h c hc
  simp [isAuthErrChunk, hce]

/-- Outcome discriminator used to state success. -/
def isSucceeded : PushResult → Bool
  | .succeeded _ => true
  | _ => false

/-! ## C1 — idempotency: equal digests mean no push, no tag, Skipped -/

/-- Claim C1. In `push_images` (`src/docker-nifi/nifi/03_push_nifi_images.py`),
every tag whose remote digest check succeeds (remote digest = local digest)
is never pushed, the script issues no tag call at all, and — when the tag is
a scanned candidate — it is recorded in the skipped list ("identical image
already exists in remote repository").  Hence a re-run over unchanged local
images and an unchanged remote target performs no redundant transfer. -/
theorem claim_C1 (w : NifiWorld) (cfg : NifiConfig) (execute : Bool) (tag : Str)
    (h : check_remote_image_exists w tag = true) :
    Event.push tag ∉ (push_images w cfg execute).1
    ∧ (∀ s, Event.tagOp s ∉ (push_images w cfg execute).1)
    ∧ (tag ∈ w.images.flatMap id → isNifiCandidate cfg tag = true →
        tag ∈ (push_images w cfg execute).2.1) := by
  refine ⟨?_, ?_, ?_⟩
  · intro hmem
    rw [push_images_events] at hmem
    rcases List.mem_append.mp hmem with hscan | hpush
    · obtain ⟨t, ht⟩ := pushScan_events_remoteCheck w cfg _ _ hscan
      exact Event.noConfusion ht
    · rcases execute with _ | _
      · simp at hpush
      · simp only [if_pos] at hpush
        obtain ⟨t, htmem, hteq⟩ := List.mem_map.mp hpush
        have : t = tag := by injection hteq
        subst this
        rw [pushScan_toPush, List.mem_filter] at htmem
        have := htmem.2
        rw [h] at this
        simp at this
  · intro s hmem
    rw [push_images_events] at hmem
    rcases List.mem_append.mp hmem with hscan | hpush
    · obtain ⟨t, ht⟩ := pushScan_events_remoteCheck w cfg _ _ hscan
      exact Event.noConfusion ht
    · rcases execute with _ | _
      · simp at hpush
      · simp only [if_pos] at hpush
        obtain ⟨t, -, hteq⟩ := List.mem_map.mp hpush
        exact Event.noConfusion hteq
  · intro hmem hcand
    rw [push_images_skipped, pushScan_skipped, List.mem_filter]
    exact ⟨hmem, by rw [hcand, h]; rfl⟩

/-- Concrete world for the C1 witness: one local image whose remote digest
matches the local one. -/
def c1Tag : Str := "reg/nifi:1.0".toList

def c1Cfg : NifiConfig := ⟨"reg".toList, ["nifi".toList], ["*".toList]⟩

def c1World : NifiWorld where
  images := [[c1Tag]]
  localDigest := fun _ => some "sha256:abc".toList
  remote := fun _ => .found "sha256:abc".toList

/-- Witness for C1: in the concrete world the digests match, the candidate
is skipped, and no push or tag event occurs. -/
theorem claim_C1_witness :
    Event.push c1Tag ∉ (push_images c1World c1Cfg true).1
    ∧ (∀ s, Event.tagOp s ∉ (push_images c1World c1Cfg true).1)
    ∧ c1Tag ∈ (push_images c1World c1Cfg true).2.1 := by
  have h := claim_C1 c1World c1Cfg true c1Tag (by decide)
  exact ⟨h.1, h.2.1, h.2.2 (by decide) (by decide)⟩

/-! ## C3 — dry run side effects -/

/-- Claim C3, counterexample. The claim says a dry run performs *no* network
call at all, in particular no remote-digest lookup.  In the nifi push
script the scan phase calls `check_remote_image_exists` (lines 168–172)
*before* the `if not execute` early return, so a dry run over one candidate
still issues exactly one remote-digest lookup. -/
theorem claim_C3_counterexample :
    (push_images c1World c1Cfg false).1 = [Event.remoteCheck c1Tag] := by decide

/-- Claim C3, amended. A dry run performs no push, tag or removal call: the
nifi push scan emits only remote-digest lookups when `execute` is false;
`retag_images` without `--execute` emits no events; and the docdirect
`push_image` dry-run branch returns the simulated outcome without any
client call. -/
theorem claim_C3 (w : NifiWorld) (cfg : NifiConfig) :
    (∀ e ∈ (push_images w cfg false).1, ∃ t, e = Event.remoteCheck t)
    ∧ (∀ (images : List (List Str)) (remove_old : Bool),
        (retag_images images cfg false remove_old).2 = [])
    ∧ (∀ (tag : Str) (token : Option Str) (localExists : Bool)
        (attempts : List PushAttempt),
        push_image tag token localExists true attempts = some (.simulated, [])) := by
  refine ⟨?_, ?_, ?_⟩
  · intro e he
    rw [push_images_events] at he
    simp only [Bool.false_eq_true, if_false, List.append_nil] at he
    exact pushScan_events_remoteCheck w cfg _ e he
  · intro images remove_old
    rfl
  · intro tag token localExists attempts
    rfl

/-- Witness for C3: the amended statement applied to the concrete world. -/
theorem claim_C3_witness :
    (∃ t, Event.remoteCheck c1Tag = Event.remoteCheck t)
    ∧ (retag_images [[c1Tag]] c1Cfg false true).2 = []
    ∧ push_image c1Tag none true true [] = some (.simulated, []) :=
  ⟨(claim_C3 c1World c1Cfg).1 (Event.remoteCheck c1Tag) (by decide),
   (claim_C3 c1World c1Cfg).2.1 [[c1Tag]] true,
   (claim_C3 c1World c1Cfg).2.2 c1Tag none true []⟩

/-! ## C6 — glob-based candidate selection -/

/-- Claim C6. A tag is selected by `retag_images` only if its bare name (last
`/`-segment) matches at least one configured name glob and its tag matches
at least one configured tag glob, both case-folded on both sides; and the
glob `*disco*` matches `idol-disco-agent` but not `idol-content`. -/
theorem claim_C6 :
    (∀ (images : List (List Str)) (cfg : NifiConfig) (execute remove_old : Bool)
       (t : Str), t ∈ (retag_images images cfg execute remove_old).1 →
         (∃ p ∈ cfg.image_names,
            fnmatchcase (pyLower (parseRef t).1) (pyLower p) = true)
         ∧ (∃ q ∈ cfg.image_tags,
            fnmatchcase (pyLower (parseRef t).2) (pyLower q) = true))
    ∧ fnmatchcase "idol-disco-agent".toList "*disco*".toList = true
    ∧ fnmatchcase "idol-content".toList "*disco*".toList = false := by
  refine ⟨?_, by decide, by decide⟩
  intro images cfg execute remove_old t ht
  have ht' : t ∈ (images.flatMap id).filter (isRetagCandidate cfg) := ht
  rw [List.mem_filter] at ht'
  have hcand := ht'.2
  unfold isRetagCandidate at hcand
  simp only [Bool.and_eq_true] at hcand
  have hsp := hcand.1.2
  rw [should_process_image_eq, Bool.and_eq_true] at hsp
  obtain ⟨hname, htag⟩ := hsp
  rw [List.any_eq_true] at hname htag
  exact ⟨hname, htag⟩

def c6Tag : Str := "idol-disco-agent:24.4".toList

def c6Cfg : NifiConfig := ⟨"registry.local/repo".toList, ["*disco*".toList], ["*".toList]⟩

/-- Witness for C6: the concrete candidate `idol-disco-agent:24.4` under
the glob configuration `*disco*`/`*`. -/
theorem claim_C6_witness :
    (∃ p ∈ c6Cfg.image_names,
       fnmatchcase (pyLower (parseRef c6Tag).1) (pyLower p) = true)
    ∧ (∃ q ∈ c6Cfg.image_tags,
       fnmatchcase (pyLower (parseRef c6Tag).2) (pyLower q) = true) :=
  claim_C6.1 [[c6Tag]] c6Cfg false false c6Tag (by decide)

/-! ## C10 — reference parsing totality and the `latest` default -/

/-- Claim C10. A local reference with no `:` separator is parsed with tag
`latest`: it is matched against the tag globs with tag `latest` and its
retag target is `{target_repo}/{bare name}:latest`.  `parseRef` is a total
function by construction (the only list index it takes is guarded by the
length test mirroring `if len(image_parts) > 1`), so parsing never fails. -/
theorem claim_C10 (target_repo ref : Str) (cfg : NifiConfig) (h : ':' ∉ ref) :
    (parseRef ref).2 = "latest".toList
    ∧ newImage target_repo ref
        = target_repo ++ '/' :: (pySplit '/' ref).getLastD [] ++ ':' :: "latest".toList
    ∧ should_process_image (parseRef ref).1 (parseRef ref).2 cfg
        = ((cfg.image_names.any fun p =>
              fnmatchcase (pyLower (parseRef ref).1) (pyLower p))
           && (cfg.image_tags.any fun q =>
              fnmatchcase (pyLower "latest".toList) (pyLower q))) := by
  have hsplit : pySplit ':' ref = [ref] := pySplit_of_not_mem h
  have h2 : (parseRef ref).2 = "latest".toList := by
    unfold parseRef
    rw [hsplit]
    simp
  have h1 : (parseRef ref).1 = (pySplit '/' ref).getLastD [] := by
    unfold parseRef
    rw [hsplit]
    rfl
  refine ⟨h2, ?_, ?_⟩
  · unfold newImage
    rw [h1, h2]
  · rw [should_process_image_eq, h2]

def c10Ref : Str := "myrepo/nifi".toList

def c10Repo : Str := "registry.local/repo".toList

def c10Cfg : NifiConfig := ⟨c10Repo, ["nifi".toList], ["*".toList]⟩

/-- Witness for C10: the colon-free reference `myrepo/nifi`. -/
theorem claim_C10_witness :
    (parseRef c10Ref).2 = "latest".toList
    ∧ newImage c10Repo c10Ref
        = c10Repo ++ '/' :: (pySplit '/' c10Ref).getLastD [] ++ ':' :: "latest".toList
    ∧ should_process_image (parseRef c10Ref).1 (parseRef c10Ref).2 c10Cfg
        = ((c10Cfg.image_names.any fun p =>
              fnmatchcase (pyLower (parseRef c10Ref).1) (pyLower p))
           && (c10Cfg.image_tags.any fun q =>
              fnmatchcase (pyLower "latest".toList) (pyLower q))) :=
  claim_C10 c10Repo c10Ref c10Cfg (by decide)

/-! ## C4 — pagination result and request count -/

def okLogin : LoginResp := ⟨200, some "tok".toList⟩

def pageB : PageResp := ⟨200, ["b".toList], true⟩

def pageA : PageResp := ⟨200, ["a".toList], false⟩

/-- Claim C4, counterexample. The claim says the paginated listing returns the
concatenation of the pages' items *in server-returned order*; but
`get_all_packages` returns `sorted(packages)`, so a 2-page response whose
items arrive as `b`, `a` comes back as `a`, `b`. -/
theorem claim_C4_counterexample :
    (get_all_packages okLogin pageB [pageA]).1 = ["a".toList, "b".toList]
    ∧ (get_all_packages okLogin pageB [pageA]).1 ≠ ["b".toList, "a".toList] := by
  decide

/-- Claim C4, amended. Over a finite chain of 200-status pages linked by
`next` pointers, the listing issues exactly one page request per page and
returns the *sorted* concatenation of all pages' items (order is
lexicographic ascending, not server order), with no error reported; the
same items are returned by `list_tags`. -/
theorem claim_C4 (login : LoginResp) (tok : Str) (first : PageResp)
    (chain : List PageResp) (h1 : login.status = 200)
    (h2 : login.token = some tok) (h3 : first.status = 200)
    (h4 : linked first.hasNext chain) :
    (get_all_packages login first chain).1
      = pySorted (first.results ++ (chain.map (·.results)).flatten)
    ∧ (get_all_packages login first chain).2 = []
    ∧ get_all_packages_requests login first chain = 1 + chain.length
    ∧ (list_tags login first chain).1
      = pySorted (first.results ++ (chain.map (·.results)).flatten) := by
  have hf := followNext_linked chain first.hasNext h4
  unfold get_all_packages get_all_packages_requests list_tags
  simp [h1, h2, h3, hf]

def c4p1 : PageResp := ⟨200, ["p1".toList], true⟩

def c4p2 : PageResp := ⟨200, ["p2".toList], true⟩

def c4p3 : PageResp := ⟨200, ["p3".toList], false⟩

/-- Witness for C4: the synthetic 3-page response (`next` on pages 1–2,
none on page 3) — three page requests, sorted concatenation. -/
theorem claim_C4_witness :
    (get_all_packages okLogin c4p1 [c4p2, c4p3]).1
      = pySorted (c4p1.results ++ ([c4p2, c4p3].map (·.results)).flatten)
    ∧ (get_all_packages okLogin c4p1 [c4p2, c4p3]).2 = []
    ∧ get_all_packages_requests okLogin c4p1 [c4p2, c4p3] = 1 + [c4p2, c4p3].length
    ∧ (list_tags okLogin c4p1 [c4p2, c4p3]).1
      = pySorted (c4p1.results ++ ([c4p2, c4p3].map (·.results)).flatten) :=
  claim_C4 okLogin "tok".toList c4p1 [c4p2, c4p3] rfl rfl rfl (by decide)

/-! ## C5 — partial results on a failing page -/

def badPage : PageResp := ⟨500, ["x".toList], false⟩

/-- Claim C5, counterexample. The claim says every paginated listing that hits
a non-success page returns the accumulated items *together with a reported
error*; but `list_tags` breaks out of its loop silently — the partial
result comes back with no error indication of any kind. -/
theorem claim_C5_counterexample :
    (list_tags okLogin pageB [badPage]).1 = ["b".toList]
    ∧ (list_tags okLogin pageB [badPage]).2 = [] := by
  decide

/-- Claim C5, amended. A non-success page aborts the pagination and the
items accumulated so far are still returned (sorted): `get_all_packages`
additionally prints a `Failed to get next page` report, while `list_tags`
stops silently; neither function returns an error value to its caller. -/
theorem claim_C5 (login : LoginResp) (tok : Str) (first : PageResp)
    (good : List PageResp) (bad : PageResp) (rest : List PageResp)
    (h1 : login.status = 200) (h2 : login.token = some tok)
    (h3 : first.status = 200) (h4 : first.hasNext = true)
    (h5 : okPages good) (h6 : bad.status ≠ 200) :
    get_all_packages login first (good ++ bad :: rest)
      = (pySorted (first.results ++ (good.map (·.results)).flatten),
         [.nextPageError bad.status])
    ∧ list_tags login first (good ++ bad :: rest)
      = (pySorted (first.results ++ (good.map (·.results)).flatten), []) := by
  have hf := followNext_failure good bad rest h5 h6
  unfold get_all_packages list_tags
  simp [h1, h2, h3, h4, hf]

/-- Witness for C5: one good page after the first, then a 500 response. -/
theorem claim_C5_witness :
    get_all_packages okLogin c4p1 ([c4p2] ++ badPage :: [])
      = (pySorted (c4p1.results ++ ([c4p2].map (·.results)).flatten),
         [.nextPageError badPage.status])
    ∧ list_tags okLogin c4p1 ([c4p2] ++ badPage :: [])
      = (pySorted (c4p1.results ++ ([c4p2].map (·.results)).flatten), []) :=
  claim_C5 okLogin "tok".toList c4p1 [c4p2] badPage [] rfl rfl rfl rfl
    (by decide) (by decide)

/-! ## C2 — authentication retry recursion -/

def authChunk : PushChunk := ⟨some "authentication required".toList, none, none⟩

def okChunk : PushChunk := ⟨none, some "Pushed".toList, some "abc123".toList⟩

def c2Tag : Str := "registry.example.com/idol/content:24.4".toList

def c2Token : Option Str := some "glpat-token".toList

/-- Three scripted attempts: two auth-failing streams with successful
logins, then a clean successful push. -/
def c2Script : List PushAttempt :=
  [⟨[authChunk], true⟩, ⟨[authChunk], true⟩, ⟨[okChunk], false⟩]

def countLogin (evs : List Event) : Nat :=
  evs.countP fun e => match e with | .login _ => true | _ => false

def countPush (evs : List Event) : Nat :=
  evs.countP fun e => match e with | .push _ => true | _ => false

/-- Claim C2, counterexample. The claim says the engine performs at most one
re-login and retries the push at most once, "with no further recursion
regardless of how the retried push ends".  But `push_image` retries by an
unbounded recursive self-call: when the retried push again reports an
authentication error and the login again succeeds, a *second* re-login and
a *third* push occur — here a run with two logins and three pushes that
still ends Succeeded. -/
theorem claim_C2_counterexample :
    (pushAttempts c2Tag c2Token c2Script).map (fun r => countLogin r.2) = some 2
    ∧ (pushAttempts c2Tag c2Token c2Script).map (fun r => countPush r.2) = some 3
    ∧ (pushAttempts c2Tag c2Token c2Script).map (·.1) = some (.succeeded 1) := by
  decide

/-- Claim C2, amended. Each push attempt whose stream flags an
authentication error while a token is available performs one re-login
against `tag.split('/')[0]` and, if the login succeeds, retries the whole
push by a recursive self-call — the recursion is *not* capped at one
retry.  In the single-failure scenario (first stream auth-fails, login
succeeds, second stream completes cleanly with at least one layer) the run
ends Succeeded after exactly one re-login and two pushes. -/
theorem claim_C2 (tag : Str) (token : Option Str) (a1 a2 : PushAttempt)
    (h1 : (foldStream a1.stream).needs_auth = true)
    (h2 : tokenTruthy token = true)
    (h3 : a1.loginOk = true)
    (h4 : (foldStream a2.stream).error_details = [])
    (h5 : 0 < (foldStream a2.stream).pushed_layers) :
    pushAttempts tag token [a1, a2]
      = some (.succeeded (foldStream a2.stream).pushed_layers,
          [.push tag, .login (registryOf tag), .push tag]) := by
  have h6 := needs_auth_false_of_no_errors a2.stream h4
  simp [pushAttempts, h1, h2, h3, h4, h5, h6]

def c2wAuth : PushAttempt := ⟨[authChunk], true⟩

def c2wOk : PushAttempt := ⟨[okChunk], false⟩

/-- Witness for C2: the spec's own example scenario — one auth failure, one
successful login, one clean retried push. -/
theorem claim_C2_witness :
    pushAttempts c2Tag c2Token [c2wAuth, c2wOk]
      = some (.succeeded (foldStream c2wOk.stream).pushed_layers,
          [.push c2Tag, .login (registryOf c2Tag), .push c2Tag]) :=
  claim_C2 c2Tag c2Token c2wAuth c2wOk (by decide) (by decide) rfl
    (by decide) (by decide)

/-! ## C7 — success classification of a completed push stream -/

/-- When the stream does not trigger the re-login path, `push_image`'s
decision chain reduces to the error / layer-count classification. -/
theorem pushAttempts_terminal (tag : Str) (token : Option Str)
    (a : PushAttempt) (rest : List PushAttempt)
    (hcond : ((foldStream a.stream).needs_auth && tokenTruthy token) = false) :
    pushAttempts tag token (a :: rest)
      = (if !(foldStream a.stream).error_details.isEmpty then
           some (.failed ("Push failed: ".toList
                    ++ joinSemi (foldStream a.stream).error_details),
                 [Event.push tag])
         else if (foldStream a.stream).pushed_layers > 0 then
           some (.succeeded (foldStream a.stream).pushed_layers, [Event.push tag])
         else some (.failed noLayersMsg, [Event.push tag])) := by
  conv_lhs => rw [pushAttempts]
  simp only [hcond, Bool.false_eq_true, if_false]

/-- Claim C7. For a completed push stream that does not trigger the re-login
path, the job is marked Succeeded iff at least one layer was reported
`Pushed` or `Layer already exists` and no error message was buffered;
otherwise it is marked Failed, and with no buffered error the reason is the
code's no-layers diagnostic
(`"Push failed - no layers were pushed (check authentication and
permissions)"`, which the spec renders as "no layers were pushed — check
authentication and permissions"). -/
theorem claim_C7 (tag : Str) (token : Option Str) (a : PushAttempt)
    (rest : List PushAttempt)
    (hterm : ¬((foldStream a.stream).needs_auth = true ∧ tokenTruthy token = true)) :
    ((pushAttempts tag token (a :: rest)).map (fun r => isSucceeded r.1) = some true
      ↔ (∃ c ∈ a.stream, isLayerDone c = true) ∧ (∀ c ∈ a.stream, c.error = none))
    ∧ ((∀ c ∈ a.stream, c.error = none) → (∀ c ∈ a.stream, isLayerDone c = false) →
        pushAttempts tag token (a :: rest)
          = some (.failed noLayersMsg, [.push tag])) := by
  have hcond : ((foldStream a.stream).needs_auth && tokenTruthy token) = false := by
    cases hna : (foldStream a.stream).needs_auth <;>
      cases ht : tokenTruthy token <;> simp_all
  have hpush : (foldStream a.stream).pushed_layers = a.stream.countP isLayerDone := by
    unfold foldStream
    rw [foldl_pushed_layers]
    simp [initAcc]
  have herr : (foldStream a.stream).error_details = a.stream.filterMap (·.error) := by
    unfold foldStream
    rw [foldl_error_details]
    rfl
  rw [pushAttempts_terminal tag token a rest hcond]
  constructor
  · by_cases he : a.stream.filterMap (·.error) = []
    · have hie : (foldStream a.stream).error_details.isEmpty = true := by
        rw [herr, he]
        rfl
      rw [hie]
      simp only [Bool.not_true, Bool.false_eq_true, if_false]
      by_cases hp : (foldStream a.stream).pushed_layers > 0
      · rw [if_pos hp]
        simp only [Option.map_some', isSucceeded]
        constructor
        · intro _
          refine ⟨?_, fun c hc => (List.filterMap_eq_nil_iff.mp he) c hc⟩
          rw [hpush] at hp
          simpa using List.countP_pos_iff.mp hp
        · intro _
          trivial
      · rw [if_neg hp]
        simp only [Option.map_some', isSucceeded]
        constructor
        · intro h
          exact absurd h (by simp)
        · rintro ⟨⟨c, hc, hdone⟩, -⟩
          exact absurd (hpush ▸ List.countP_pos_iff.mpr ⟨c, hc, hdone⟩) hp
    · have hie : (foldStream a.stream).error_details.isEmpty = false := by
        rw [herr]
        cases hl : a.stream.filterMap (·.error) with
        | nil => exact absurd hl he
        | cons x xs => rfl
      rw [hie]
      simp only [Bool.not_false, if_true]
      simp only [Option.map_some', isSucceeded]
      constructor
      · intro h
        exact absurd h (by simp)
      · rintro ⟨-, hall⟩
        exact absurd (List.filterMap_eq_nil_iff.mpr hall) he
  · intro hAllNone hNoDone
    have he : a.stream.filterMap (·.error) = [] :=
      List.filterMap_eq_nil_iff.mpr hAllNone
    have hie : (foldStream a.stream).error_details.isEmpty = true := by
      rw [herr, he]
      rfl
    have hp : ¬(foldStream a.stream).pushed_layers > 0 := by
      rw [hpush]
      intro hpos
      obtain ⟨c, hc, hdone⟩ := List.countP_pos_iff.mp hpos
      exact absurd hdone (by simp [hNoDone c hc])
    rw [hie]
    simp only [Bool.not_true, Bool.false_eq_true, if_false, if_neg hp]

def c7Tag : Str := "reg/content:24.4".toList

def c7Attempt : PushAttempt := ⟨[okChunk], false⟩

/-- Witness for C7: a clean single-chunk stream with one pushed layer and
no token. -/
theorem claim_C7_witness :
    ((pushAttempts c7Tag none [c7Attempt]).map (fun r => isSucceeded r.1) = some true
      ↔ (∃ c ∈ c7Attempt.stream, isLayerDone c = true)
        ∧ (∀ c ∈ c7Attempt.stream, c.error = none))
    ∧ ((∀ c ∈ c7Attempt.stream, c.error = none) →
        (∀ c ∈ c7Attempt.stream, isLayerDone c = false) →
        pushAttempts c7Tag none [c7Attempt]
          = some (.failed noLayersMsg, [.push c7Tag])) :=
  claim_C7 c7Tag none c7Attempt [] (by decide)

/-! ## C8 — process exit code -/

def deniedChunk : PushChunk :=
  ⟨some "denied: requested access to the resource is denied".toList, none, none⟩

def c8Tag : Str := "reg/content:24.4".toList

def c8World : DocdirectWorld where
  images := [[c8Tag]]
  localExists := fun _ => true
  attempts := fun _ => [⟨[deniedChunk], false⟩]

def c8Results : List (Option (PushResult × List Event)) :=
  process_images c8World "reg".toList ["content".toList] ["24.4".toList] false none

/-- Claim C8, counterexample. The claim says any job failure yields process
exit code 1, but `push_image` records failures in the log only and `main`
exits 0 whenever no exception escapes: a run whose single job fails still
ends with exit code 0. -/
theorem claim_C8_counterexample :
    c8Results.any isFailedOutcome = true
    ∧ main_exit_code (.ok c8Results) = 0 := by
  decide

/-- Claim C8, amended. The exit code is 0 whenever the run completes without
an escaping exception — regardless of how many jobs failed — and 1 exactly
when `KeyboardInterrupt` or another unhandled exception escapes `main`. -/
theorem claim_C8 (results : List (Option (PushResult × List Event))) (err : Str) :
    main_exit_code (.ok results) = 0 ∧ main_exit_code (.error err) = 1 :=
  ⟨rfl, rfl⟩

/-! ## C9 — transcript durability -/

def c9Entry : Str :=
  "2025-01-01 00:00:00, reg/content:24.4, Pushed successfully (1 layers), Elapsed time: 1.00 seconds".toList

/-- Claim C9, counterexample. The claim says each job's line is appended *and
flushed*, so the on-disk transcript always holds one line per completed
job.  The script never calls `flush()`: after one completed job the line
sits in the write buffer and the file on disk is still empty. -/
theorem claim_C9_counterexample :
    (runTranscript [c9Entry]).disk = []
    ∧ (runTranscript [c9Entry]).disk ≠ c9Entry ++ ['\n'] := by
  constructor
  · rfl
  · decide

theorem transcript_foldl (entries : List Str) (f : LogFile) :
    entries.foldl writeJobLine f
      = ⟨f.disk, f.buffer ++ (entries.map (· ++ ['\n'])).flatten⟩ := by
  induction entries generalizing f with
  | nil =>
    cases f
    simp
  | cons e es ih =>
    rw [List.foldl_cons, ih]
    simp [writeJobLine, logWrite]

/-- Claim C9, amended. Each terminal job appends exactly one complete
newline-terminated line to the transcript's write buffer, in job order —
but no per-job flush happens: while the run is in progress the file on
disk is empty, and the full transcript (one line per job) reaches disk
only when the `with` block closes the file. -/
theorem claim_C9 (entries : List Str) :
    (runTranscript entries).disk = []
    ∧ (runTranscript entries).buffer = (entries.map (· ++ ['\n'])).flatten
    ∧ (logClose (runTranscript entries)).disk = (entries.map (· ++ ['\n'])).flatten := by
  unfold runTranscript
  rw [transcript_foldl]
  simp [logOpen, logClose, logFlush]
